import Mathlib

/-!
Shallow embedding of `fg21sim/configs/manager.py` (ConfigManager): the
validation+merge engine, nested-key access, path resolution and the
derived frequency computation.  External collaborators (the configobj
parser/`Section.merge`, the `validate.Validator` checks, `os.path`
functions) are modelled by their documented behaviour; everything in
`ConfigManager` itself is translated line by line.
-/

namespace Fg21sim

/-- A configuration value after parsing/validation.  Python floats are
modelled as exact rationals. -/
inductive Value where
  | str (s : String)
  | num (q : ℚ)
  | numList (l : List ℚ)
deriving DecidableEq

/-- A node of a (raw or validated) config tree: either a scalar value or a
nested section, i.e. the nested mapping a `ConfigObj` holds.  Sections keep
their entries as an ordered association list with unique keys, matching a
Python dict's insertion order. -/
inductive CVal where
  | scalar (v : Value)
  | sect (entries : List (String × CVal))

/-- Dict lookup (`d[k]` / `d.get(k)` when present): first entry with the key. -/
def lookupAssoc : List (String × CVal) → String → Option CVal
  | [], _ => none
  | (k2, v) :: rest, k => if k2 = k then some v else lookupAssoc rest k

/-- Dict assignment `d[k] = v`: replaces the value in place when the key
exists (keeping its position), appends otherwise. -/
def assocSet : List (String × CVal) → String → CVal → List (String × CVal)
  | [], k, v => [(k, v)]
  | (k2, v2) :: rest, k, v =>
      if k2 = k then (k, v) :: rest else (k2, v2) :: assocSet rest k v

mutual

/-- `base.merge(overlay)` of configobj's `Section.merge`, the MergeEngine:
iterate over the overlay's items; when both sides hold a section at a key,
recurse, otherwise overwrite. -/
def mergeInto (base overlay : List (String × CVal)) : List (String × CVal) :=
  match overlay with
  | [] => base
  | (k, v) :: rest => mergeInto (mergeOne base k v) rest
termination_by sizeOf overlay

/-- One step of `Section.merge`: the body of its loop for a single
overlay item `(k, v)`. -/
def mergeOne (base : List (String × CVal)) (k : String) (v : CVal) :
    List (String × CVal) :=
  match lookupAssoc base k with
  | some (.sect b) =>
      match v with
      | .sect o => assocSet base k (.sect (mergeInto b o))
      | _ => assocSet base k v
  | _ => assocSet base k v
termination_by sizeOf v

end

theorem lookup_assocSet_self (l : List (String × CVal)) (k : String) (v : CVal) :
    lookupAssoc (assocSet l k v) k = some v := by
  induction l with
  | nil => simp [assocSet, lookupAssoc]
  | cons hd tl ih =>
      obtain ⟨k2, v2⟩ := hd
      by_cases h : k2 = k <;> simp [assocSet, lookupAssoc, h, ih]

theorem lookup_assocSet_ne (l : List (String × CVal)) (k k2 : String) (v : CVal)
    (h : k2 ≠ k) : lookupAssoc (assocSet l k2 v) k = lookupAssoc l k := by
  induction l with
  | nil => simp [assocSet, lookupAssoc, h]
  | cons hd tl ih =>
      obtain ⟨k3, v3⟩ := hd
      by_cases h3 : k3 = k2
      · subst h3; simp [assocSet, lookupAssoc, h]
      · simp [assocSet, lookupAssoc, h3, ih]

theorem lookup_mergeOne_ne (base : List (String × CVal)) (k k2 : String)
    (v : CVal) (h : k2 ≠ k) :
    lookupAssoc (mergeOne base k2 v) k = lookupAssoc base k := by
  unfold mergeOne
  cases hb : lookupAssoc base k2 with
  | none => exact lookup_assocSet_ne _ _ _ _ h
  | some b =>
      cases b with
      | scalar w => exact lookup_assocSet_ne _ _ _ _ h
      | sect s => cases v <;> exact lookup_assocSet_ne _ _ _ _ h

theorem lookup_mergeOne_scalar (base : List (String × CVal)) (k : String)
    (w : Value) :
    lookupAssoc (mergeOne base k (.scalar w)) k = some (.scalar w) := by
  unfold mergeOne
  cases hb : lookupAssoc base k with
  | none => exact lookup_assocSet_self _ _ _
  | some b => cases b <;> exact lookup_assocSet_self _ _ _

theorem lookup_mergeInto_notMem (base overlay : List (String × CVal))
    (k : String) (h : k ∉ overlay.map Prod.fst) :
    lookupAssoc (mergeInto base overlay) k = lookupAssoc base k := by
  induction overlay generalizing base with
  | nil => rw [mergeInto]
  | cons hd tl ih =>
      obtain ⟨k2, v2⟩ := hd
      simp only [List.map_cons, List.mem_cons] at h
      push_neg at h
      rw [mergeInto]
      rw [ih _ h.2, lookup_mergeOne_ne _ _ _ _ (Ne.symm h.1)]

theorem lookup_mergeInto_scalar (base overlay : List (String × CVal))
    (k : String) (w : Value)
    (hnd : (overlay.map Prod.fst).Nodup)
    (h : lookupAssoc overlay k = some (.scalar w)) :
    lookupAssoc (mergeInto base overlay) k = some (.scalar w) := by
  induction overlay generalizing base with
  | nil => simp [lookupAssoc] at h
  | cons hd tl ih =>
      obtain ⟨k2, v2⟩ := hd
      simp only [List.map_cons, List.nodup_cons] at hnd
      rw [lookupAssoc] at h
      by_cases hk : k2 = k
      · subst hk
        rw [if_pos rfl] at h
        injection h with h
        subst h
        rw [mergeInto, lookup_mergeInto_notMem _ _ _ hnd.1]
        exact lookup_mergeOne_scalar _ _ _
      · rw [if_neg hk] at h
        rw [mergeInto]
        exact ih _ hnd.2 h

/-- The exceptions the embedded code can raise.  `configError` is the
repository's `ConfigError`; `typeError` and `zeroDivisionError` are the
Python built-ins that escape uncaught from `getn`/`frequencies`.
`invalidConfigError` and `keyNotFoundError` are the `InvalidConfigError`
and `KeyNotFoundError` kinds named by the design documentation's error
taxonomy (its `errors` module is outside the manager source); nothing in
the translated code ever raises either. -/
inductive PyError where
  | configError (msg : String)
  | typeError
  | zeroDivisionError
  | invalidConfigError
  | keyNotFoundError
deriving DecidableEq

/-- A check declared for a scalar field in the configspec.  Models the
external `validate.Validator` check kinds the claims exercise. -/
inductive Check where
  | string
  | integer
deriving DecidableEq

/-- Running one `validate.Validator` check on a raw value: `some` is the
coerced value, `none` a check failure. -/
def runCheck : Check → Value → Option Value
  | .string, .str s => some (.str s)
  | .string, _ => none
  | .integer, .str s => (String.toInt? s).map (fun n => .num (n : ℚ))
  | .integer, .num q => if q.den = 1 then some (.num q) else none
  | .integer, _ => none

/-- One entry of the configspec (`self._configspec`): a scalar field with
its check and optional default, or a nested section of entries. -/
inductive SpecEntry where
  | scalar (c : Check) (default : Option Value) : SpecEntry
  | sect (entries : List (String × SpecEntry)) : SpecEntry

/-- One violation reported by `flatten_errors` in `_validate`:
`(section_list, key, res)` with `res = False` (missing key), a failed
check, or a missing section (`key is None`). -/
inductive Violation where
  | missing (path : List String) (key : String)
  | failed (path : List String) (key : String)
  | missingSection (path : List String)
deriving DecidableEq

/-- `config.validate(validator, preserve_errors=True)` as configobj runs it
against a configspec section: every declared scalar is looked up in the raw
section (coerced on success, default substituted when absent, a violation
recorded when absent with no default or failing its check), and declared
subsections recurse — configobj creates a section missing from the raw tree
as empty before validating it.  Returns the validated entries together with
the `flatten_errors` violation list for the whole subtree. -/
def validateScalar (k : String) (c : Check) (dflt : Option Value)
    (raw : List (String × CVal)) (path : List String) :
    List (String × CVal) × List Violation :=
  match lookupAssoc raw k with
  | some (.scalar v) =>
      match runCheck c v with
      | some v2 => ([(k, .scalar v2)], [])
      | none => ([(k, .scalar v)], [.failed path k])
  | some (.sect s) => ([(k, .sect s)], [.failed path k])
  | none =>
      match dflt with
      | some d => ([(k, .scalar d)], [])
      | none => ([], [.missing path k])

/-- The raw entries a declared subsection is validated against: configobj
creates a section missing from the raw tree as empty before validating
it. -/
def rawSub (raw : List (String × CVal)) (k : String) : List (String × CVal) :=
  match lookupAssoc raw k with
  | some (.sect s) => s
  | _ => []

def validateEntries (spec : List (String × SpecEntry))
    (raw : List (String × CVal)) (path : List String) :
    List (String × CVal) × List Violation :=
  match spec with
  | [] => ([], [])
  | (k, .scalar c dflt) :: rest =>
      let r1 := validateScalar k c dflt raw path
      let r := validateEntries rest raw path
      (r1.1 ++ r.1, r1.2 ++ r.2)
  | (k, .sect spec2) :: rest =>
      let r := validateEntries rest raw path
      let r2 := validateEntries spec2 (rawSub raw k) (path ++ [k])
      ((k, .sect r2.1) :: r.1, r2.2 ++ r.2)
termination_by sizeOf spec

/-- The message `_validate` formats for one `flatten_errors` triple. -/
def renderViolation : Violation → String
  | .missing path key =>
      "key \"" ++ key ++ "\" in section \"" ++
        String.intercalate ", " path ++ "\" is missing."
  | .failed path key =>
      "key \"" ++ key ++ "\" in section \"" ++
        String.intercalate ", " path ++ "\" failed validation"
  | .missingSection path =>
      "section \"" ++ String.intercalate "." path ++ "\" is missing"

/-- The multi-line `error_msg` accumulated by `_validate`. -/
def renderReport (vs : List Violation) : String :=
  String.join (vs.map (fun v => renderViolation v ++ "\n"))

/-- `ConfigManager._validate`: validate against the spec; return the
validated config if the results are clean, otherwise raise one
`ConfigError` carrying the whole rendered report. -/
def mgrValidate (spec : List (String × SpecEntry))
    (raw : List (String × CVal)) :
    Except PyError (List (String × CVal)) :=
  let r := validateEntries spec raw []
  if r.2 = [] then .ok r.1 else .error (.configError (renderReport r.2))

/-- The outcome of handing one input source to the external `ConfigObj`
parser: either a `ConfigObjError` or a raw nested mapping. -/
inductive Input where
  | parseError (msg : String)
  | parsed (raw : List (String × CVal))

/-- The mutable state of a `ConfigManager`: the merged config
(`self._config`) and the optionally recorded user-config path
(`self.userconfig`, absent until `read_userconfig` succeeds).  The
immutable `self._configspec` is passed to the operations explicitly. -/
structure ManagerState where
  config : List (String × CVal)
  userconfig : Option String

/-- `ConfigManager.read_config`: parse (a `ConfigObjError` becomes a
`ConfigError`), validate, and only then merge into `self._config`.
Returns the state after the call together with the raised exception, if
any. -/
def read_config (spec : List (String × SpecEntry)) (st : ManagerState)
    (input : Input) : ManagerState × Option PyError :=
  match input with
  | .parseError e => (st, some (.configError e))
  | .parsed raw =>
      match mgrValidate spec raw with
      | .error e => (st, some e)
      | .ok newconfig =>
          ({ st with config := mergeInto st.config newconfig }, none)

/-- `os.path`-style absolute-path test: a POSIX path is absolute iff it
starts with the separator. -/
def isabs (s : String) : Bool :=
  s.data.head? = some '/'

/-- `posixpath.join` for a single extra component: an absolute second
component discards the first; otherwise a separator is inserted unless one
is already present. -/
def pathJoin (a b : String) : String :=
  if b.data.head? = some '/' then b
  else if a.data = [] then b
  else if a.data.getLast? = some '/' then ⟨a.data ++ b.data⟩
  else ⟨a.data ++ '/' :: b.data⟩

/-- `os.path.abspath` with the process working directory made explicit:
join onto `cwd` unless already absolute (path normalization of `.`/`..`
segments is not modelled; it does not affect the claims). -/
def abspath (cwd p : String) : String :=
  if isabs p then p else pathJoin cwd p

/-- `ConfigManager.read_userconfig`: refuse when a user config was already
recorded; a file that cannot be read (`file = none`, Python `IOError`)
becomes a `ConfigError`; otherwise run `read_config` on the file's lines
and, only after it succeeded, record the absolute path. -/
def read_userconfig (spec : List (String × SpecEntry)) (cwd : String)
    (st : ManagerState) (userconfig : String) (file : Option Input) :
    ManagerState × Option PyError :=
  match st.userconfig with
  | some p =>
      (st, some (.configError
        ("User configuration already loaded from \"" ++ p ++ "\"")))
  | none =>
      match file with
      | none =>
          (st, some (.configError
            ("Cannot read config from \"" ++ userconfig ++ "\"")))
      | some input =>
          match read_config spec st input with
          | (st2, none) =>
              ({ st2 with userconfig := some (abspath cwd userconfig) }, none)
          | (st2, some e) => (st2, some e)

/-- One step of `reduce(dict.get, keys, self._config)`: `dict.get`
applied to the accumulated object.  On a section it is a plain dict
lookup (`none` models Python `None` for an absent key); on `None` or a
scalar the unbound `dict.get` raises `TypeError`. -/
def dictGet : Option CVal → String → Except PyError (Option CVal)
  | some (.sect entries), k => .ok (lookupAssoc entries k)
  | _, _ => .error .typeError

/-- `reduce(dict.get, keys, self._config)` over an explicit key list. -/
def getnList (config : List (String × CVal)) (keys : List String) :
    Except PyError (Option CVal) :=
  keys.foldlM dictGet (some (.sect config))

/-- Python `str.split(sep)` for a one-character separator (the `getn`
docstring requires `len(sep) = 1`). -/
def pySplitAux (sep : Char) : List Char → List Char → List String
  | [], acc => [⟨acc.reverse⟩]
  | c :: rest, acc =>
      if c = sep then ⟨acc.reverse⟩ :: pySplitAux sep rest []
      else pySplitAux sep rest (c :: acc)

/-- Python `s.split(sep)`. -/
def pySplit (sep : Char) (s : String) : List String :=
  pySplitAux sep s.data []

/-- `ConfigManager.getn`: accept either a `sep`-separated key string
(split first) or an explicit key list, then reduce `dict.get` over the
merged config. -/
def getn (config : List (String × CVal)) (keys : String ⊕ List String)
    (sep : Char) : Except PyError (Option CVal) :=
  getnList config (match keys with
    | .inl s => pySplit sep s
    | .inr ks => ks)

/-- Strip trailing separators (`str.rstrip('/')`). -/
def rstripSlash (l : List Char) : List Char :=
  (l.reverse.dropWhile (fun c => c = '/')).reverse

/-- Index of the last separator in the character list, if any. -/
def lastSlashPos : List Char → Option Nat
  | [] => none
  | c :: rest =>
      match lastSlashPos rest with
      | some n => some (n + 1)
      | none => if c = '/' then some 0 else none

/-- `posixpath.dirname`: everything up to and including the last
separator, with trailing separators stripped unless the result is all
separators. -/
def dirname (s : String) : String :=
  let l := s.data
  let head := match lastSlashPos l with
    | some n => l.take (n + 1)
    | none => ([] : List Char)
  if head ≠ [] ∧ head.any (fun c => c ≠ '/') then ⟨rstripSlash head⟩
  else ⟨head⟩

/-- `os.path.expanduser` with the `HOME` environment value made explicit:
a path not starting with `~` is unchanged; `~` alone or `~/...` expands to
`HOME` (stripped of trailing separators, falling back to `/` when the
result would be empty); a `~user` form would consult the password
database, which is not modelled — it is returned unchanged, as Python does
for an unknown user. -/
def expanduser (home p : String) : String :=
  match p.data with
  | '~' :: rest =>
      match rest with
      | [] =>
          let r := rstripSlash home.data
          if r = [] then "/" else ⟨r⟩
      | '/' :: _ =>
          let r := rstripSlash home.data ++ rest
          if r = [] then "/" else ⟨r⟩
      | _ => p
  | _ => p

/-- `ConfigManager.get_path`: fetch the value with `getn`, expand a
leading `~`, and if the result is not absolute join it onto the directory
of the recorded user-config path when one exists, else warn and return it
unresolved.  The `Bool` records whether the warning was emitted; a
non-string value would make `expanduser` raise `TypeError`. -/
def get_path (home : String) (st : ManagerState)
    (keys : String ⊕ List String) : Except PyError (String × Bool) :=
  match getn st.config keys '/' with
  | .error e => .error e
  | .ok (some (.scalar (.str s))) =>
      let path := expanduser home s
      if isabs path then .ok (path, false)
      else
        match st.userconfig with
        | some uc => .ok (pathJoin (dirname uc) path, false)
        | none => .ok (path, true)
  | .ok _ => .error .typeError

/-- Python `int()` on a float: truncation toward zero. -/
def pyInt (q : ℚ) : ℤ :=
  if 0 ≤ q then ⌊q⌋ else ⌈q⌉

/-- The test `self.getn("frequency/type") == "custom"`. -/
def isCustomType (t : Option CVal) : Bool :=
  match t with
  | some (.scalar (.str s)) => s = "custom"
  | _ => false

/-- The `frequencies` property: on `frequency/type == "custom"` return
`frequency/frequencies` as stored; otherwise compute
`num = int((stop - start) / step + 1)` and the list
`[start + step*i for i in range(num)]`.  Python's float division by zero
raises `ZeroDivisionError`; arithmetic on a non-numeric operand raises
`TypeError`. -/
def frequencies (st : ManagerState) : Except PyError (Option CVal) := do
  let t ← getn st.config (.inl "frequency/type") '/'
  if isCustomType t then
    getn st.config (.inl "frequency/frequencies") '/'
  else
    let s1 ← getn st.config (.inl "frequency/start") '/'
    let s2 ← getn st.config (.inl "frequency/stop") '/'
    let s3 ← getn st.config (.inl "frequency/step") '/'
    match s1, s2, s3 with
    | some (.scalar (.num start)), some (.scalar (.num stop)),
      some (.scalar (.num step)) =>
        if step = 0 then .error .zeroDivisionError
        else
          let num : ℤ := pyInt ((stop - start) / step + 1)
          .ok (some (.scalar (.numList
            ((List.range num.toNat).map (fun i : ℕ => start + step * (i : ℚ))))))
    | _, _, _ => .error .typeError

theorem lookupAssoc_eq_none (l : List (String × CVal)) (k : String) :
    lookupAssoc l k = none ↔ k ∉ l.map Prod.fst := by
  induction l with
  | nil => simp [lookupAssoc]
  | cons hd tl ih =>
      obtain ⟨k2, v2⟩ := hd
      rw [lookupAssoc]
      simp only [List.map_cons]
      by_cases h : k2 = k
      · subst h; simp
      · rw [if_neg h, ih]
        constructor
        · intro hn hm
          rcases List.mem_cons.mp hm with h1 | h1
          · exact h h1.symm
          · exact hn h1
        · intro hn hm
          exact hn (List.mem_cons.mpr (Or.inr hm))

/-- Lookup of a nested key path in a config tree
(`self._config[k1][k2]…[kn]`): walks sections level by level; the empty
path addresses the section itself; a path through a missing key or
through a scalar yields `none`. -/
def lookupPath (entries : List (String × CVal)) (p : List String) :
    Option CVal :=
  match p with
  | [] => some (.sect entries)
  | k :: rest =>
      match lookupAssoc entries k with
      | some (.sect s) => lookupPath s rest
      | some (.scalar v) => if rest = [] then some (.scalar v) else none
      | none => none

theorem lookupPath_nil (entries : List (String × CVal)) :
    lookupPath entries [] = some (.sect entries) := rfl

theorem lookupPath_cons (entries : List (String × CVal)) (k : String)
    (rest : List String) :
    lookupPath entries (k :: rest) =
      (match lookupAssoc entries k with
        | some (.sect s) => lookupPath s rest
        | some (.scalar v) => if rest = [] then some (.scalar v) else none
        | none => none) := rfl

/-- A key path is cleanly absent from a tree: walking it descends only
through sections and then hits a missing key.  This is how a field absent
from a validated layer misses it, since layer and merged config share the
schema's section structure. -/
def missesCleanly (entries : List (String × CVal)) (p : List String) :
    Bool :=
  match p with
  | [] => false
  | k :: rest =>
      match lookupAssoc entries k with
      | none => true
      | some (.sect s) => missesCleanly s rest
      | some (.scalar _) => false

theorem missesCleanly_cons (entries : List (String × CVal)) (k : String)
    (rest : List String) :
    missesCleanly entries (k :: rest) =
      (match lookupAssoc entries k with
        | none => true
        | some (.sect s) => missesCleanly s rest
        | some (.scalar _) => false) := rfl

/-- Every section level a key path traverses has duplicate-free keys —
always true of trees coming from Python dicts. -/
def nodupOnPath (entries : List (String × CVal)) (p : List String) : Bool :=
  match p with
  | [] => true
  | k :: rest =>
      decide ((entries.map Prod.fst).Nodup) &&
        (match lookupAssoc entries k with
          | some (.sect s) => nodupOnPath s rest
          | _ => true)

theorem nodupOnPath_cons (entries : List (String × CVal)) (k : String)
    (rest : List String) :
    nodupOnPath entries (k :: rest) =
      (decide ((entries.map Prod.fst).Nodup) &&
        (match lookupAssoc entries k with
          | some (.sect s) => nodupOnPath s rest
          | _ => true)) := rfl

theorem missesCleanly_ne_nil (entries : List (String × CVal))
    (p : List String) (h : missesCleanly entries p = true) : p ≠ [] := by
  intro hp
  rw [hp] at h
  exact Bool.false_ne_true h

theorem missesCleanly_lookupPath_none (entries : List (String × CVal))
    (p : List String) (h : missesCleanly entries p = true) :
    lookupPath entries p = none := by
  induction p generalizing entries with
  | nil => exact absurd h (by simp [missesCleanly])
  | cons k rest ih =>
      rw [missesCleanly_cons] at h
      rw [lookupPath_cons]
      cases hl : lookupAssoc entries k with
      | none => simp only [hl]
      | some v =>
          cases v with
          | scalar w => simp [hl] at h
          | sect s =>
              simp only [hl] at h
              simp only [hl]
              exact ih _ h

/-- The merged value at a key that holds a section in the overlay: when
the base also holds a section there, the two are merged; otherwise the
overlay's section replaces whatever the base held. -/
theorem lookup_mergeInto_sect (base overlay : List (String × CVal))
    (k : String) (s : List (String × CVal))
    (hnd : (overlay.map Prod.fst).Nodup)
    (h : lookupAssoc overlay k = some (.sect s)) :
    (∃ bs, lookupAssoc base k = some (.sect bs) ∧
      lookupAssoc (mergeInto base overlay) k =
        some (.sect (mergeInto bs s))) ∨
    ((∀ bs, lookupAssoc base k ≠ some (.sect bs)) ∧
      lookupAssoc (mergeInto base overlay) k = some (.sect s)) := by
  induction overlay generalizing base with
  | nil => simp [lookupAssoc] at h
  | cons hd tl ih =>
      obtain ⟨k2, v2⟩ := hd
      simp only [List.map_cons, List.nodup_cons] at hnd
      rw [lookupAssoc] at h
      by_cases hk : k2 = k
      · subst hk
        rw [if_pos rfl] at h
        injection h with h
        subst h
        rw [mergeInto, lookup_mergeInto_notMem _ _ _ hnd.1]
        rw [mergeOne]
        cases hb : lookupAssoc base k2 with
        | none =>
            refine Or.inr ⟨?_, lookup_assocSet_self _ _ _⟩
            intro bs hbs
            exact Option.noConfusion hbs
        | some b =>
            cases b with
            | scalar u =>
                refine Or.inr ⟨?_, lookup_assocSet_self _ _ _⟩
                intro bs hbs
                injection hbs with hbs
                exact CVal.noConfusion hbs
            | sect bs =>
                exact Or.inl ⟨bs, rfl, lookup_assocSet_self _ _ _⟩
      · rw [if_neg hk] at h
        rw [mergeInto]
        have htrans := lookup_mergeOne_ne base k k2 v2 hk
        rcases ih (mergeOne base k2 v2) hnd.2 h with ⟨bs, hb, hm⟩ | ⟨hnb, hm⟩
        · exact Or.inl ⟨bs, htrans ▸ hb, hm⟩
        · exact Or.inr ⟨fun bs hbs => hnb bs (htrans ▸ hbs), hm⟩

/-- A scalar present in the overlay at any key-path depth survives the
merge with its overlay value. -/
theorem lookupPath_mergeInto_scalar (base overlay : List (String × CVal))
    (p : List String) (w : Value)
    (hnd : nodupOnPath overlay p = true)
    (h : lookupPath overlay p = some (.scalar w)) :
    lookupPath (mergeInto base overlay) p = some (.scalar w) := by
  induction p generalizing base overlay with
  | nil =>
      rw [lookupPath_nil] at h
      exact absurd h (by simp)
  | cons k rest ih =>
      rw [nodupOnPath_cons, Bool.and_eq_true] at hnd
      have hnd1 : (overlay.map Prod.fst).Nodup := of_decide_eq_true hnd.1
      have hnd2 := hnd.2
      rw [lookupPath_cons] at h
      rw [lookupPath_cons]
      cases hl : lookupAssoc overlay k with
      | none => simp [hl] at h
      | some v =>
          cases v with
          | scalar u =>
              simp only [hl] at h
              cases rest with
              | nil =>
                  simp at h
                  subst h
                  rw [lookup_mergeInto_scalar base overlay k u hnd1 hl]
                  simp
              | cons r rs => simp at h
          | sect s =>
              simp only [hl] at h hnd2
              rcases lookup_mergeInto_sect base overlay k s hnd1 hl with
                ⟨bs, hb, hm⟩ | ⟨hnb, hm⟩
              · simp only [hm]
                exact ih bs s hnd2 h
              · simp only [hm]
                exact h

/-- A key path cleanly absent from the overlay keeps its pre-merge value
through the merge, at any depth. -/
theorem lookupPath_mergeInto_missing (base overlay : List (String × CVal))
    (p : List String)
    (hnd : nodupOnPath overlay p = true)
    (hm : missesCleanly overlay p = true) :
    lookupPath (mergeInto base overlay) p = lookupPath base p := by
  induction p generalizing base overlay with
  | nil => exact absurd hm (by simp [missesCleanly])
  | cons k rest ih =>
      rw [nodupOnPath_cons, Bool.and_eq_true] at hnd
      have hnd1 : (overlay.map Prod.fst).Nodup := of_decide_eq_true hnd.1
      have hnd2 := hnd.2
      rw [missesCleanly_cons] at hm
      rw [lookupPath_cons, lookupPath_cons]
      cases hl : lookupAssoc overlay k with
      | none =>
          rw [lookup_mergeInto_notMem _ _ _ ((lookupAssoc_eq_none _ _).mp hl)]
      | some v =>
          cases v with
          | scalar u => simp [hl] at hm
          | sect s =>
              simp only [hl] at hm hnd2
              rcases lookup_mergeInto_sect base overlay k s hnd1 hl with
                ⟨bs, hb, hmg⟩ | ⟨hnb, hmg⟩
              · simp only [hmg, hb]
                exact ih bs s hnd2 hm
              · simp only [hmg]
                cases hbl : lookupAssoc base k with
                | none =>
                    simp only [hbl]
                    exact missesCleanly_lookupPath_none s rest hm
                | some b =>
                    cases b with
                    | scalar u =>
                        simp only [hbl]
                        rw [if_neg (missesCleanly_ne_nil s rest hm)]
                        exact missesCleanly_lookupPath_none s rest hm
                    | sect bs => exact absurd hbl (hnb bs)

/-- C1: for validated layers merged in order by `read_config`, the merged
config holds, for every field (scalar leaf, addressed by its key path at
any nesting depth) present in the most recently merged layer `L2`, the
value from `L2`, and for every field path absent from `L2` (the walk
falls off `L2` at a missing key — the only way a field of a
schema-shaped tree can be absent from a schema-shaped layer), the value
the merged config held just before `L2` was merged: the most recently
merged layer wins every field-level conflict. -/
theorem merge_last_layer_wins (spec : List (String × SpecEntry))
    (st : ManagerState) (raw L2 : List (String × CVal)) (st2 : ManagerState)
    (p : List String)
    (hval : mgrValidate spec raw = .ok L2)
    (hnd : nodupOnPath L2 p = true)
    (hrc : read_config spec st (.parsed raw) = (st2, none)) :
    (∀ w, lookupPath L2 p = some (.scalar w) →
        lookupPath st2.config p = some (.scalar w)) ∧
    (missesCleanly L2 p = true →
        lookupPath st2.config p = lookupPath st.config p) := by
  have hc : st2.config = mergeInto st.config L2 := by
    rw [read_config, hval] at hrc
    have := congrArg Prod.fst hrc
    simp only at this
    rw [← this]
  constructor
  · intro w hw
    rw [hc]
    exact lookupPath_mergeInto_scalar _ _ _ _ hnd hw
  · intro hmiss
    rw [hc]
    exact lookupPath_mergeInto_missing _ _ _ hnd hmiss

/-- Concrete instantiation of `merge_last_layer_wins` on a nested schema:
the layer overrides `s/a` deep inside section `s`, wins there, and the
field path `s/c` absent from the layer keeps its pre-merge value. -/
theorem merge_last_layer_wins_witness :
    mgrValidate
        [("s", .sect [("a", .scalar .string (some (.str "da"))),
                      ("b", .scalar .string (some (.str "db")))])]
        [("s", .sect [("a", .scalar (.str "X"))])] =
      .ok [("s", .sect [("a", .scalar (.str "X")),
                        ("b", .scalar (.str "db"))])] ∧
    read_config
        [("s", .sect [("a", .scalar .string (some (.str "da"))),
                      ("b", .scalar .string (some (.str "db")))])]
        ⟨[("s", .sect [("a", .scalar (.str "olda")),
                       ("b", .scalar (.str "oldb")),
                       ("c", .scalar (.str "oldc"))])], none⟩
        (.parsed [("s", .sect [("a", .scalar (.str "X"))])]) =
      (⟨[("s", .sect [("a", .scalar (.str "X")),
                      ("b", .scalar (.str "db")),
                      ("c", .scalar (.str "oldc"))])], none⟩, none) ∧
    lookupPath [("s", .sect [("a", .scalar (.str "X")),
                             ("b", .scalar (.str "db"))])] ["s", "a"] =
      some (.scalar (.str "X")) ∧
    lookupPath [("s", .sect [("a", .scalar (.str "X")),
                             ("b", .scalar (.str "db")),
                             ("c", .scalar (.str "oldc"))])] ["s", "a"] =
      some (.scalar (.str "X")) ∧
    missesCleanly [("s", .sect [("a", .scalar (.str "X")),
                                ("b", .scalar (.str "db"))])] ["s", "c"] =
      true ∧
    lookupPath [("s", .sect [("a", .scalar (.str "X")),
                             ("b", .scalar (.str "db")),
                             ("c", .scalar (.str "oldc"))])] ["s", "c"] =
      lookupPath [("s", .sect [("a", .scalar (.str "olda")),
                               ("b", .scalar (.str "oldb")),
                               ("c", .scalar (.str "oldc"))])] ["s", "c"] := by
  have hval : mgrValidate
      [("s", SpecEntry.sect [("a", .scalar .string (some (.str "da"))),
                             ("b", .scalar .string (some (.str "db")))])]
      [("s", CVal.sect [("a", .scalar (.str "X"))])] =
      .ok [("s", CVal.sect [("a", .scalar (.str "X")),
                            ("b", .scalar (.str "db"))])] := by
    simp [mgrValidate, validateEntries, validateScalar, rawSub,
      lookupAssoc, runCheck]
  have hrc : read_config
      [("s", SpecEntry.sect [("a", .scalar .string (some (.str "da"))),
                             ("b", .scalar .string (some (.str "db")))])]
      ⟨[("s", CVal.sect [("a", .scalar (.str "olda")),
                         ("b", .scalar (.str "oldb")),
                         ("c", .scalar (.str "oldc"))])], none⟩
      (.parsed [("s", CVal.sect [("a", .scalar (.str "X"))])]) =
      (⟨[("s", CVal.sect [("a", .scalar (.str "X")),
                          ("b", .scalar (.str "db")),
                          ("c", .scalar (.str "oldc"))])], none⟩, none) := by
    simp [read_config, hval, mergeInto, mergeOne, lookupAssoc, assocSet]
  refine ⟨hval, hrc, rfl, ?_, rfl, ?_⟩
  · exact (merge_last_layer_wins _ _ _ _ _ ["s", "a"] hval (by decide)
      hrc).1 (.str "X") rfl
  · exact (merge_last_layer_wins _ _ _ _ _ ["s", "c"] hval (by decide)
      hrc).2 rfl

theorem mgrValidate_error (spec : List (String × SpecEntry))
    (raw : List (String × CVal)) (e : PyError)
    (h : mgrValidate spec raw = .error e) : ∃ m, e = .configError m := by
  rw [mgrValidate] at h
  split at h
  · exact absurd h (by simp)
  · exact ⟨_, (Except.error.inj h).symm⟩

theorem read_config_error (spec : List (String × SpecEntry))
    (st : ManagerState) (input : Input) (st2 : ManagerState) (e : PyError)
    (h : read_config spec st input = (st2, some e)) :
    st2 = st ∧ ∃ m, e = .configError m := by
  cases input with
  | parseError msg =>
      rw [read_config] at h
      obtain ⟨h1, h2⟩ := Prod.mk.injEq .. ▸ h
      exact ⟨h1.symm, _, (Option.some.inj h2).symm⟩
  | parsed raw =>
      rw [read_config] at h
      cases hv : mgrValidate spec raw with
      | error e2 =>
          rw [hv] at h
          obtain ⟨h1, h2⟩ := Prod.mk.injEq .. ▸ h
          refine ⟨h1.symm, ?_⟩
          obtain ⟨m, hm⟩ := mgrValidate_error _ _ _ hv
          exact ⟨m, (Option.some.inj h2).symm ▸ hm⟩
      | ok nc =>
          rw [hv] at h
          obtain ⟨h1, h2⟩ := Prod.mk.injEq .. ▸ h
          exact absurd h2 (by simp)

/-- C2: whenever `read_config` or `read_userconfig` fails — parse failure,
unreadable file, repeated user config or validation failure — the raised
exception is a `ConfigError` and the merged config is exactly what it was
before the call: no partially merged state is ever exposed. -/
theorem read_failure_preserves_config (spec : List (String × SpecEntry))
    (st : ManagerState) :
    (∀ input st2 e, read_config spec st input = (st2, some e) →
        st2.config = st.config ∧ ∃ m, e = .configError m) ∧
    (∀ cwd p file st2 e, read_userconfig spec cwd st p file = (st2, some e) →
        st2.config = st.config ∧ ∃ m, e = .configError m) := by
  constructor
  · intro input st2 e h
    obtain ⟨h1, h2⟩ := read_config_error _ _ _ _ _ h
    exact ⟨by rw [h1], h2⟩
  · intro cwd p file st2 e h
    cases hu : st.userconfig with
    | some q =>
        rw [read_userconfig.eq_def, hu] at h
        injection h with h1 h2
        injection h2 with h2
        exact ⟨by rw [← h1], _, h2.symm⟩
    | none =>
        cases file with
        | none =>
            rw [read_userconfig.eq_def, hu] at h
            injection h with h1 h2
            injection h2 with h2
            exact ⟨by rw [← h1], _, h2.symm⟩
        | some input =>
            rw [read_userconfig.eq_def] at h
            rcases hrc : read_config spec st input with ⟨st3, oe⟩
            simp only [hu, hrc] at h
            cases oe with
            | none =>
                injection h with h1 h2
                exact absurd h2 (by simp)
            | some e2 =>
                injection h with h1 h2
                injection h2 with h2
                obtain ⟨h3, m, hm⟩ := read_config_error _ _ _ _ _ hrc
                refine ⟨?_, m, h2.symm ▸ hm⟩
                rw [← h1, h3]

/-- Concrete instantiation of `read_failure_preserves_config`: a failing
parse leaves the merged config untouched and surfaces a `ConfigError`. -/
theorem read_failure_preserves_config_witness :
    read_config [] ⟨[("a", .scalar (.str "1"))], none⟩ (.parseError "bad") =
      (⟨[("a", .scalar (.str "1"))], none⟩, some (.configError "bad")) ∧
    ([("a", CVal.scalar (.str "1"))] = [("a", CVal.scalar (.str "1"))] ∧
      ∃ m, PyError.configError "bad" = .configError m) := by
  have h : read_config [] ⟨[("a", CVal.scalar (.str "1"))], none⟩
      (.parseError "bad") =
      (⟨[("a", CVal.scalar (.str "1"))], none⟩, some (.configError "bad")) :=
    rfl
  exact ⟨h,
    (read_failure_preserves_config [] ⟨[("a", .scalar (.str "1"))], none⟩).1
      (.parseError "bad") _ _ h⟩

theorem isabs_pathJoin_left (a b : String) (ha : isabs a = true) :
    isabs (pathJoin a b) = true := by
  rw [isabs, decide_eq_true_iff] at ha
  rw [pathJoin]
  by_cases hb : b.data.head? = some '/'
  · rw [if_pos hb, isabs, decide_eq_true_iff]
    exact hb
  · rw [if_neg hb]
    have hane : a.data ≠ [] := by
      intro h0
      rw [h0] at ha
      exact absurd ha (by simp)
    rw [if_neg hane]
    by_cases hl : a.data.getLast? = some '/'
    · rw [if_pos hl, isabs, decide_eq_true_iff]
      show (a.data ++ b.data).head? = some '/'
      rw [List.head?_append_of_ne_nil _ hane]
      exact ha
    · rw [if_neg hl, isabs, decide_eq_true_iff]
      show (a.data ++ '/' :: b.data).head? = some '/'
      rw [List.head?_append_of_ne_nil _ hane]
      exact ha

theorem isabs_abspath (cwd p : String) (h : isabs cwd = true) :
    isabs (abspath cwd p) = true := by
  rw [abspath]
  by_cases hp : isabs p = true
  · rw [if_pos hp]; exact hp
  · rw [if_neg hp]; exact isabs_pathJoin_left _ _ h

/-- A successful `read_userconfig` records the absolute user-config path. -/
theorem read_userconfig_ok_state (spec : List (String × SpecEntry))
    (cwd : String) (st st1 : ManagerState) (p : String) (f : Option Input)
    (h : read_userconfig spec cwd st p f = (st1, none)) :
    st1.userconfig = some (abspath cwd p) := by
  cases hu : st.userconfig with
  | some q =>
      rw [read_userconfig.eq_def, hu] at h
      injection h with h1 h2
      exact absurd h2 (by simp)
  | none =>
      cases f with
      | none =>
          rw [read_userconfig.eq_def, hu] at h
          injection h with h1 h2
          exact absurd h2 (by simp)
      | some input =>
          rw [read_userconfig.eq_def] at h
          rcases hrc : read_config spec st input with ⟨st3, oe⟩
          simp only [hu, hrc] at h
          cases oe with
          | none =>
              injection h with h1 h2
              rw [← h1]
          | some e2 =>
              injection h with h1 h2
              exact absurd h2 (by simp)

/-- C3: once `read_userconfig` has succeeded, any second call fails with
the "already loaded" `ConfigError` and returns the state of the first call
unchanged — merged config and recorded path included. -/
theorem read_userconfig_second_call_fails (spec spec2 : List (String × SpecEntry))
    (cwd cwd2 : String) (st st1 : ManagerState) (p p2 : String)
    (f f2 : Option Input)
    (h : read_userconfig spec cwd st p f = (st1, none)) :
    read_userconfig spec2 cwd2 st1 p2 f2 =
      (st1, some (.configError
        ("User configuration already loaded from \"" ++ abspath cwd p ++
          "\""))) := by
  have hu := read_userconfig_ok_state _ _ _ _ _ _ h
  rw [read_userconfig.eq_def, hu]

/-- Concrete instantiation of `read_userconfig_second_call_fails`: a first
load succeeds and records `/w/cfg.conf`; the second then fails with the
"already loaded" error, leaving the state alone. -/
theorem read_userconfig_second_call_fails_witness :
    read_userconfig [("a", .scalar .string (some (.str "d")))] "/w"
        ⟨[("a", .scalar (.str "d"))], none⟩ "cfg.conf"
        (some (.parsed [("a", .scalar (.str "x"))])) =
      (⟨[("a", .scalar (.str "x"))], some "/w/cfg.conf"⟩, none) ∧
    read_userconfig [("a", .scalar .string (some (.str "d")))] "/w"
        ⟨[("a", .scalar (.str "x"))], some "/w/cfg.conf"⟩ "cfg.conf"
        (some (.parsed [("a", .scalar (.str "x"))])) =
      (⟨[("a", .scalar (.str "x"))], some "/w/cfg.conf"⟩,
        some (.configError
          "User configuration already loaded from \"/w/cfg.conf\"")) := by
  have habs : abspath "/w" "cfg.conf" = "/w/cfg.conf" := by decide
  have h1 : read_userconfig [("a", SpecEntry.scalar .string (some (.str "d")))]
      "/w" ⟨[("a", CVal.scalar (.str "d"))], none⟩ "cfg.conf"
      (some (.parsed [("a", CVal.scalar (.str "x"))])) =
      (⟨[("a", CVal.scalar (.str "x"))], some "/w/cfg.conf"⟩, none) := by
    rw [read_userconfig.eq_def]
    have hrc : read_config [("a", SpecEntry.scalar .string (some (.str "d")))]
        ⟨[("a", CVal.scalar (.str "d"))], none⟩
        (.parsed [("a", CVal.scalar (.str "x"))]) =
        (⟨[("a", CVal.scalar (.str "x"))], none⟩, none) := by
      simp [read_config, mgrValidate, validateEntries, validateScalar,
        lookupAssoc, runCheck, mergeInto, mergeOne, assocSet]
    simp only [hrc, habs]
  refine ⟨h1, ?_⟩
  have h2 := read_userconfig_second_call_fails _
    [("a", SpecEntry.scalar .string (some (.str "d")))] _ "/w" _ _ _
    "cfg.conf" _ (some (.parsed [("a", CVal.scalar (.str "x"))])) h1
  rw [habs] at h2
  exact h2

/-- C10: a failed `read_userconfig` — unreadable file or failed
parse/validation — leaves the user-config path attribute unset and the
state as it was, so a later `read_userconfig` on a readable valid file
still succeeds; the path is recorded (as an absolute path) only after the
internal `read_config` step has completed successfully. -/
theorem read_userconfig_failure_keeps_path_unset
    (spec : List (String × SpecEntry)) (cwd cwd2 p p2 : String)
    (st st1 : ManagerState) (f : Option Input) (in2 : Input) (e : PyError)
    (hnone : st.userconfig = none)
    (hfail : read_userconfig spec cwd st p f = (st1, some e)) :
    st1 = st ∧ st1.userconfig = none ∧
    ((read_config spec st in2).2 = none →
      read_userconfig spec cwd2 st p2 (some in2) =
        ({ (read_config spec st in2).1 with
            userconfig := some (abspath cwd2 p2) }, none)) ∧
    (isabs cwd2 = true → isabs (abspath cwd2 p2) = true) := by
  have hst : st1 = st := by
    cases f with
    | none =>
        rw [read_userconfig.eq_def, hnone] at hfail
        injection hfail with h1 h2
        exact h1.symm
    | some input =>
        rw [read_userconfig.eq_def] at hfail
        rcases hrc : read_config spec st input with ⟨st3, oe⟩
        simp only [hnone, hrc] at hfail
        cases oe with
        | none =>
            injection hfail with h1 h2
            exact absurd h2 (by simp)
        | some e2 =>
            injection hfail with h1 h2
            obtain ⟨h3, _⟩ := read_config_error _ _ _ _ _ hrc
            rw [← h1]
            exact h3
  refine ⟨hst, by rw [hst, hnone], ?_, fun hc => isabs_abspath _ _ hc⟩
  intro hok
  rcases hrc2 : read_config spec st in2 with ⟨st4, oe4⟩
  rw [hrc2] at hok
  simp only at hok
  subst hok
  rw [read_userconfig.eq_def]
  simp only [hnone, hrc2]

/-- Concrete instantiation of `read_userconfig_failure_keeps_path_unset`:
an unreadable file fails the call, the path stays unset, and a later call
on a valid file records the absolute path. -/
theorem read_userconfig_failure_keeps_path_unset_witness :
    (⟨[("a", .scalar (.str "d"))], none⟩ : ManagerState).userconfig = none ∧
    read_userconfig [("a", .scalar .string (some (.str "d")))] "/w"
        ⟨[("a", .scalar (.str "d"))], none⟩ "bad.conf" none =
      (⟨[("a", .scalar (.str "d"))], none⟩,
        some (.configError "Cannot read config from \"bad.conf\"")) ∧
    ((read_config [("a", .scalar .string (some (.str "d")))]
        ⟨[("a", .scalar (.str "d"))], none⟩
        (.parsed [("a", .scalar (.str "x"))])).2 = none →
      read_userconfig [("a", .scalar .string (some (.str "d")))] "/w"
          ⟨[("a", .scalar (.str "d"))], none⟩ "u.conf"
          (some (.parsed [("a", .scalar (.str "x"))])) =
        ({ (read_config [("a", .scalar .string (some (.str "d")))]
              ⟨[("a", .scalar (.str "d"))], none⟩
              (.parsed [("a", .scalar (.str "x"))])).1 with
            userconfig := some (abspath "/w" "u.conf") }, none)) := by
  have h2 : read_userconfig [("a", SpecEntry.scalar .string (some (.str "d")))]
      "/w" ⟨[("a", CVal.scalar (.str "d"))], none⟩ "bad.conf" none =
      (⟨[("a", CVal.scalar (.str "d"))], none⟩,
        some (.configError "Cannot read config from \"bad.conf\"")) := rfl
  exact ⟨rfl, h2,
    (read_userconfig_failure_keeps_path_unset _ "/w" "/w" "bad.conf" "u.conf"
      _ _ none (.parsed [("a", .scalar (.str "x"))]) _ rfl h2).2.2.1⟩

/-- Stated from the specification: the tree a validation of an empty raw
tree should produce — every schema-declared field with a default is
substituted, fields without defaults are absent, sections recurse. -/
def specDefaults (spec : List (String × SpecEntry)) : List (String × CVal) :=
  match spec with
  | [] => []
  | (k, .scalar _ (some d)) :: rest => (k, .scalar d) :: specDefaults rest
  | (_, .scalar _ none) :: rest => specDefaults rest
  | (k, .sect spec2) :: rest => (k, .sect (specDefaults spec2)) :: specDefaults rest
termination_by sizeOf spec

/-- Stated from the specification: exactly one missing-key violation per
schema-declared field lacking a default, over the whole tree, in
traversal order. -/
def specMissing (spec : List (String × SpecEntry)) (path : List String) :
    List Violation :=
  match spec with
  | [] => []
  | (_, .scalar _ (some _)) :: rest => specMissing rest path
  | (k, .scalar _ none) :: rest => .missing path k :: specMissing rest path
  | (k, .sect spec2) :: rest =>
      specMissing spec2 (path ++ [k]) ++ specMissing rest path
termination_by sizeOf spec

theorem validateEntries_append (s1 s2 : List (String × SpecEntry))
    (raw : List (String × CVal)) (path : List String) :
    validateEntries (s1 ++ s2) raw path =
      ((validateEntries s1 raw path).1 ++ (validateEntries s2 raw path).1,
       (validateEntries s1 raw path).2 ++ (validateEntries s2 raw path).2) := by
  induction s1 with
  | nil => simp [validateEntries]
  | cons hd tl ih =>
      obtain ⟨k, e⟩ := hd
      cases e with
      | scalar c dflt => simp [validateEntries, ih]
      | sect spec2 => simp [validateEntries, ih]

theorem validateEntries_empty (spec : List (String × SpecEntry))
    (path : List String) :
    validateEntries spec [] path = (specDefaults spec, specMissing spec path) := by
  match spec with
  | [] => simp [validateEntries, specDefaults, specMissing]
  | (k, .scalar c (some d)) :: rest =>
      have ih := validateEntries_empty rest path
      simp [validateEntries, validateScalar, specDefaults, specMissing,
        lookupAssoc, ih]
  | (k, .scalar c none) :: rest =>
      have ih := validateEntries_empty rest path
      simp [validateEntries, validateScalar, specDefaults, specMissing,
        lookupAssoc, ih]
  | (k, .sect spec2) :: rest =>
      have ih := validateEntries_empty rest path
      have ih2 := validateEntries_empty spec2 (path ++ [k])
      simp [validateEntries, specDefaults, specMissing, lookupAssoc, rawSub,
        ih, ih2]
termination_by sizeOf spec

/-- C4: validation is not fail-fast — the violations of a spec split at
any point are the concatenation of both parts' violations — and validating
a tree missing every field substitutes the default for every defaulted
field while reporting exactly one missing-key violation per field lacking
a default; `_validate` then returns the full default tree when nothing is
missing, and otherwise raises the single `ConfigError` carrying the whole
report. -/
theorem validation_collects_all (spec s1 s2 : List (String × SpecEntry))
    (raw : List (String × CVal)) (path : List String) :
    (validateEntries (s1 ++ s2) raw path).2 =
      (validateEntries s1 raw path).2 ++ (validateEntries s2 raw path).2 ∧
    validateEntries spec [] path = (specDefaults spec, specMissing spec path) ∧
    (specMissing spec [] = [] → mgrValidate spec [] = .ok (specDefaults spec)) ∧
    (specMissing spec [] ≠ [] →
      mgrValidate spec [] =
        .error (.configError (renderReport (specMissing spec [])))) := by
  refine ⟨by rw [validateEntries_append], validateEntries_empty spec path,
    ?_, ?_⟩ <;> intro h <;>
    rw [mgrValidate, validateEntries_empty spec []] <;> simp [h]

/-- Concrete instantiation of `validation_collects_all`: a schema with one
defaulted and one default-free field, validated against an empty tree. -/
theorem validation_collects_all_witness :
    specMissing
        [("s", .sect [("a", .scalar .string (some (.str "d"))),
                      ("b", .scalar .integer none)])] [] =
      [.missing ["s"] "b"] ∧
    mgrValidate
        [("s", .sect [("a", .scalar .string (some (.str "d"))),
                      ("b", .scalar .integer none)])] [] =
      .error (.configError (renderReport [.missing ["s"] "b"])) := by
  have hm : specMissing
      [("s", SpecEntry.sect [("a", .scalar .string (some (.str "d"))),
                             ("b", .scalar .integer none)])] [] =
      [.missing ["s"] "b"] := by
    simp [specMissing]
  refine ⟨hm, ?_⟩
  have h := (validation_collects_all
      [("s", .sect [("a", .scalar .string (some (.str "d"))),
                    ("b", .scalar .integer none)])] [] [] [] []).2.2.2
      (by rw [hm]; simp)
  rw [hm] at h
  exact h

theorem isCustomType_eq_false (t : Option CVal)
    (h : t ≠ some (.scalar (.str "custom"))) : isCustomType t = false := by
  rcases t with _ | tv
  · rfl
  · rcases tv with v | e
    · rcases v with s | q | l
      · rw [isCustomType]
        simp only [decide_eq_false_iff_not]
        intro hs
        exact h (by rw [hs])
      · rfl
      · rfl
    · rfl

theorem frequencies_custom_eval (st : ManagerState) (v : Option CVal)
    (h1 : getn st.config (.inl "frequency/type") '/' =
      .ok (some (.scalar (.str "custom"))))
    (h2 : getn st.config (.inl "frequency/frequencies") '/' = .ok v) :
    frequencies st = .ok v := by
  rw [frequencies, h1]
  simp only [Bind.bind, Except.bind]
  simp [isCustomType, h2]

theorem frequencies_arith_eval (st : ManagerState) (t : Option CVal)
    (start stop step : ℚ)
    (h1 : getn st.config (.inl "frequency/type") '/' = .ok t)
    (h2 : t ≠ some (.scalar (.str "custom")))
    (h3 : getn st.config (.inl "frequency/start") '/' =
      .ok (some (.scalar (.num start))))
    (h4 : getn st.config (.inl "frequency/stop") '/' =
      .ok (some (.scalar (.num stop))))
    (h5 : getn st.config (.inl "frequency/step") '/' =
      .ok (some (.scalar (.num step))))
    (h6 : step ≠ 0) :
    frequencies st = .ok (some (.scalar (.numList
      ((List.range (pyInt ((stop - start) / step + 1)).toNat).map
        (fun i : ℕ => start + step * (i : ℚ)))))) := by
  rw [frequencies, h1]
  simp only [Bind.bind, Except.bind, isCustomType_eq_false t h2,
    Bool.false_eq_true, if_false, h3, h4, h5]
  rw [if_neg h6]

/-- C5: the `frequencies` property returns the configured list verbatim
when `frequency/type` is `"custom"`; otherwise it returns the arithmetic
sequence `start, start+step, …` with `⌊(stop-start)/step⌋ + 1` elements,
inclusive of `stop` when `stop` lands exactly on a step boundary. -/
theorem frequencies_spec (st : ManagerState) :
    (∀ v, getn st.config (.inl "frequency/type") '/' =
        .ok (some (.scalar (.str "custom"))) →
      getn st.config (.inl "frequency/frequencies") '/' = .ok v →
      frequencies st = .ok v) ∧
    (∀ (t : Option CVal) (start stop step : ℚ),
      getn st.config (.inl "frequency/type") '/' = .ok t →
      t ≠ some (.scalar (.str "custom")) →
      getn st.config (.inl "frequency/start") '/' =
        .ok (some (.scalar (.num start))) →
      getn st.config (.inl "frequency/stop") '/' =
        .ok (some (.scalar (.num stop))) →
      getn st.config (.inl "frequency/step") '/' =
        .ok (some (.scalar (.num step))) →
      step ≠ 0 → 0 ≤ (stop - start) / step →
      frequencies st = .ok (some (.scalar (.numList
        ((List.range (⌊(stop - start) / step⌋ + 1).toNat).map
          (fun i : ℕ => start + step * (i : ℚ)))))) ∧
      ((((List.range (⌊(stop - start) / step⌋ + 1).toNat).map
          (fun i : ℕ => start + step * (i : ℚ))).length : ℤ) =
        ⌊(stop - start) / step⌋ + 1) ∧
      ((stop - start) / step = ((⌊(stop - start) / step⌋ : ℤ) : ℚ) →
        stop ∈ (List.range (⌊(stop - start) / step⌋ + 1).toNat).map
          (fun i : ℕ => start + step * (i : ℚ)))) := by
  refine ⟨fun v h1 h2 => frequencies_custom_eval st v h1 h2, ?_⟩
  intro t start stop step h1 h2 h3 h4 h5 hnz hx
  have hfl : 0 ≤ ⌊(stop - start) / step⌋ := Int.floor_nonneg.mpr hx
  have hpy : pyInt ((stop - start) / step + 1) =
      ⌊(stop - start) / step⌋ + 1 := by
    rw [pyInt, if_pos (by linarith), Int.floor_add_one]
  refine ⟨?_, ?_, ?_⟩
  · have h := frequencies_arith_eval st t start stop step h1 h2 h3 h4 h5 hnz
    rw [hpy] at h
    exact h
  · rw [List.length_map, List.length_range,
      Int.toNat_of_nonneg (by linarith)]
  · intro hb
    refine List.mem_map.mpr ⟨(⌊(stop - start) / step⌋).toNat,
      List.mem_range.mpr (by omega), ?_⟩
    have hcast : (((⌊(stop - start) / step⌋).toNat : ℕ) : ℚ) =
        ((⌊(stop - start) / step⌋ : ℤ) : ℚ) := by
      exact_mod_cast congrArg (fun z : ℤ => (z : ℚ))
        (Int.toNat_of_nonneg hfl)
    rw [hcast, ← hb]
    have hstep : step * ((stop - start) / step) = stop - start := by
      rw [mul_comm]
      exact div_mul_cancel₀ _ hnz
    linarith

/-- Concrete instantiation of `frequencies_spec`: `start=1, stop=10,
step=3` yields `[1, 4, 7, 10]`, and a custom list `[2.5, 7.1]` is returned
verbatim. -/
theorem frequencies_spec_witness :
    (3:ℚ) ≠ 0 ∧ (0:ℚ) ≤ ((10:ℚ) - 1) / 3 ∧
    frequencies ⟨[("frequency", .sect
        [("type", .scalar (.str "custom")),
         ("frequencies", .scalar (.numList [5/2, 71/10]))])], none⟩ =
      .ok (some (.scalar (.numList [5/2, 71/10]))) ∧
    frequencies ⟨[("frequency", .sect
        [("type", .scalar (.str "linear")),
         ("start", .scalar (.num 1)), ("stop", .scalar (.num 10)),
         ("step", .scalar (.num 3))])], none⟩ =
      .ok (some (.scalar (.numList [1, 4, 7, 10]))) := by
  have hpos : (3:ℚ) ≠ 0 := by norm_num
  have hle : (0:ℚ) ≤ ((10:ℚ) - 1) / 3 := by norm_num
  have hcust := (frequencies_spec ⟨[("frequency", .sect
      [("type", .scalar (.str "custom")),
       ("frequencies", .scalar (.numList [5/2, 71/10]))])], none⟩).1
    (some (.scalar (.numList [5/2, 71/10]))) rfl rfl
  have harith := (frequencies_spec ⟨[("frequency", .sect
      [("type", .scalar (.str "linear")),
       ("start", .scalar (.num 1)), ("stop", .scalar (.num 10)),
       ("step", .scalar (.num 3))])], none⟩).2
    (some (.scalar (.str "linear"))) 1 10 3 rfl (by simp) rfl rfl rfl hpos hle
  have hfloor : ⌊((10:ℚ) - 1) / 3⌋ = 3 := by norm_num
  have hlist : (List.range (⌊((10:ℚ) - 1) / 3⌋ + 1).toNat).map
      (fun i : ℕ => (1:ℚ) + 3 * (i : ℚ)) = [1, 4, 7, 10] := by
    rw [hfloor]
    rw [show ((3:ℤ) + 1).toNat = 4 from rfl]
    rw [show List.range 4 = [0, 1, 2, 3] from rfl]
    norm_num
  exact ⟨hpos, hle, hcust, harith.1.trans (congrArg
    (fun L => Except.ok (some (CVal.scalar (Value.numList L)))) hlist)⟩

/-- C6 (amended): with `frequency/type` not `"custom"`, numeric `start`
and `stop`, and `step = 0`, the `frequencies` property fails with Python's
built-in `ZeroDivisionError` — it does not loop indefinitely, but it also
does not raise `InvalidConfigError`, which nothing in the code raises. -/
theorem frequencies_step_zero_zeroDivision (st : ManagerState)
    (t : Option CVal) (start stop : ℚ)
    (h1 : getn st.config (.inl "frequency/type") '/' = .ok t)
    (h2 : t ≠ some (.scalar (.str "custom")))
    (h3 : getn st.config (.inl "frequency/start") '/' =
      .ok (some (.scalar (.num start))))
    (h4 : getn st.config (.inl "frequency/stop") '/' =
      .ok (some (.scalar (.num stop))))
    (h5 : getn st.config (.inl "frequency/step") '/' =
      .ok (some (.scalar (.num 0)))) :
    frequencies st = .error .zeroDivisionError := by
  rw [frequencies, h1]
  simp only [Bind.bind, Except.bind, isCustomType_eq_false t h2,
    Bool.false_eq_true, if_false, h3, h4, h5]
  simp

/-- The claim "for `step = 0`, `frequencies` fails with
`InvalidConfigError`" is false at a concrete configuration: the failure is
a `ZeroDivisionError`. -/
theorem frequencies_step_zero_not_invalidConfigError :
    frequencies ⟨[("frequency", .sect
        [("type", .scalar (.str "linear")),
         ("start", .scalar (.num 1)), ("stop", .scalar (.num 10)),
         ("step", .scalar (.num 0))])], none⟩ =
      .error .zeroDivisionError ∧
    frequencies ⟨[("frequency", .sect
        [("type", .scalar (.str "linear")),
         ("start", .scalar (.num 1)), ("stop", .scalar (.num 10)),
         ("step", .scalar (.num 0))])], none⟩ ≠
      .error .invalidConfigError := by
  have h : frequencies ⟨[("frequency", .sect
      [("type", .scalar (.str "linear")),
       ("start", .scalar (.num 1)), ("stop", .scalar (.num 10)),
       ("step", .scalar (.num 0))])], none⟩ =
      .error .zeroDivisionError := rfl
  refine ⟨h, ?_⟩
  rw [h]
  intro hc
  exact absurd (Except.error.inj hc) (by decide)

/-- Concrete instantiation of `frequencies_step_zero_zeroDivision`. -/
theorem frequencies_step_zero_zeroDivision_witness :
    getn [("frequency", .sect
        [("type", .scalar (.str "mhz")),
         ("start", .scalar (.num 2)), ("stop", .scalar (.num 8)),
         ("step", .scalar (.num 0))])] (.inl "frequency/step") '/' =
      .ok (some (.scalar (.num 0))) ∧
    frequencies ⟨[("frequency", .sect
        [("type", .scalar (.str "mhz")),
         ("start", .scalar (.num 2)), ("stop", .scalar (.num 8)),
         ("step", .scalar (.num 0))])], none⟩ =
      .error .zeroDivisionError := by
  refine ⟨rfl, ?_⟩
  exact frequencies_step_zero_zeroDivision _ (some (.scalar (.str "mhz")))
    2 8 rfl (by simp) rfl rfl rfl

theorem dictGet_blocked (v : Option CVal) (k : String)
    (h : v = none ∨ ∃ w, v = some (.scalar w)) :
    dictGet v k = .error .typeError := by
  rcases h with h | ⟨w, h⟩ <;> subst h <;> rfl

/-- C8 (amended): a `getn` key path whose walk reaches an absent key or a
scalar before the path is exhausted raises Python's built-in `TypeError`
(from applying `dict.get` to `None` or to a non-dict); the code has no
`KeyNotFoundError` and `getn` takes no sentinel. -/
theorem getn_blocked_typeError (config : List (String × CVal))
    (ks1 : List String) (k : String) (ks2 : List String) (v : Option CVal)
    (h1 : getnList config ks1 = .ok v)
    (h2 : v = none ∨ ∃ w, v = some (.scalar w)) :
    getnList config (ks1 ++ k :: ks2) = .error .typeError := by
  rw [getnList, List.foldlM_append]
  rw [getnList] at h1
  rw [h1]
  show (dictGet v k >>= fun v2 => List.foldlM dictGet v2 ks2) = _
  rw [dictGet_blocked v k h2]
  rfl

/-- The claim "a path through an absent or non-nested intermediate level
fails with `KeyNotFoundError`" is false at a concrete tree: the lookup
`a/b` through the scalar at `a` raises `TypeError` instead (and no
caller-supplied sentinel exists in `getn`). -/
theorem getn_blocked_not_keyNotFound :
    getn [("a", .scalar (.str "x"))] (.inl "a/b") '/' = .error .typeError ∧
    getn [("a", .scalar (.str "x"))] (.inl "a/b") '/' ≠
      .error .keyNotFoundError := by
  have h : getn [("a", CVal.scalar (.str "x"))] (.inl "a/b") '/' =
      .error .typeError := rfl
  refine ⟨h, ?_⟩
  rw [h]
  intro hc
  exact absurd (Except.error.inj hc) (by decide)

/-- Concrete instantiation of `getn_blocked_typeError`: the path `a/b`
through the scalar value at `a`. -/
theorem getn_blocked_typeError_witness :
    getnList [("a", .scalar (.str "x"))] ["a"] =
      .ok (some (.scalar (.str "x"))) ∧
    getnList [("a", .scalar (.str "x"))] (["a"] ++ "b" :: []) =
      .error .typeError := by
  refine ⟨rfl, ?_⟩
  exact getn_blocked_typeError [("a", .scalar (.str "x"))] ["a"] "b" []
    (some (.scalar (.str "x"))) rfl (Or.inr ⟨_, rfl⟩)

/-- C7: `getn` applied to a separator-joined key string returns exactly
what it returns on the equivalent explicit key list (the list the string
splits into). -/
theorem getn_string_list_agree (config : List (String × CVal)) (s : String)
    (sep : Char) (ks : List String) (h : pySplit sep s = ks) :
    getn config (.inl s) sep = getn config (.inr ks) sep := by
  rw [getn, getn, h]

/-- Concrete instantiation of `getn_string_list_agree`:
`getn "a/b/c"` and `getn ["a","b","c"]` agree on a nested tree (both
return the stored leaf). -/
theorem getn_string_list_agree_witness :
    pySplit '/' "a/b/c" = ["a", "b", "c"] ∧
    getn [("a", .sect [("b", .sect [("c", .scalar (.str "v"))])])]
        (.inl "a/b/c") '/' =
      getn [("a", .sect [("b", .sect [("c", .scalar (.str "v"))])])]
        (.inr ["a", "b", "c"]) '/' ∧
    getn [("a", .sect [("b", .sect [("c", .scalar (.str "v"))])])]
        (.inr ["a", "b", "c"]) '/' = .ok (some (.scalar (.str "v"))) := by
  exact ⟨rfl, getn_string_list_agree _ "a/b/c" '/' ["a", "b", "c"] rfl, rfl⟩

/-- C9: `get_path` returns the (tilde-expanded) value unchanged when it
is absolute; joins a relative value onto the directory of the recorded
user-config path when one exists; and otherwise returns the relative value
unresolved, raising no error but emitting the warning. -/
theorem get_path_resolution (home : String) (st : ManagerState)
    (keys : String ⊕ List String) (s : String)
    (hget : getn st.config keys '/' = .ok (some (.scalar (.str s)))) :
    (isabs (expanduser home s) = true →
      get_path home st keys = .ok (expanduser home s, false)) ∧
    (isabs (expanduser home s) = false → ∀ uc, st.userconfig = some uc →
      get_path home st keys =
        .ok (pathJoin (dirname uc) (expanduser home s), false)) ∧
    (isabs (expanduser home s) = false → st.userconfig = none →
      get_path home st keys = .ok (expanduser home s, true)) := by
  refine ⟨?_, ?_, ?_⟩
  · intro habs
    rw [get_path.eq_def]
    simp only [hget]
    rw [if_pos habs]
  · intro habs uc huc
    rw [get_path.eq_def]
    simp only [hget, huc]
    rw [if_neg (by rw [habs]; exact Bool.false_ne_true)]
  · intro habs huc
    rw [get_path.eq_def]
    simp only [hget, huc]
    rw [if_neg (by rw [habs]; exact Bool.false_ne_true)]

/-- Concrete instantiation of `get_path_resolution`: with the recorded
user config `/home/u/cfg.conf`, the relative value `data/in.txt` resolves
to `/home/u/data/in.txt`; an absolute value is returned unchanged; with no
recorded user config the relative value comes back unresolved with the
warning flag. -/
theorem get_path_resolution_witness :
    get_path "/root" ⟨[("p", .scalar (.str "data/in.txt"))],
        some "/home/u/cfg.conf"⟩ (.inr ["p"]) =
      .ok ("/home/u/data/in.txt", false) ∧
    get_path "/root" ⟨[("p", .scalar (.str "/abs/in.txt"))], none⟩
        (.inr ["p"]) = .ok ("/abs/in.txt", false) ∧
    get_path "/root" ⟨[("p", .scalar (.str "data/in.txt"))], none⟩
        (.inr ["p"]) = .ok ("data/in.txt", true) := by
  refine ⟨?_, ?_, ?_⟩
  · have h := ((get_path_resolution "/root"
        ⟨[("p", .scalar (.str "data/in.txt"))], some "/home/u/cfg.conf"⟩
        (.inr ["p"]) "data/in.txt" rfl).2.1 (by decide)
        "/home/u/cfg.conf" rfl)
    refine h.trans ?_
    rw [show pathJoin (dirname "/home/u/cfg.conf")
        (expanduser "/root" "data/in.txt") = "/home/u/data/in.txt" from
      by decide]
  · exact (get_path_resolution "/root"
      ⟨[("p", .scalar (.str "/abs/in.txt"))], none⟩
      (.inr ["p"]) "/abs/in.txt" rfl).1 (by decide)
  · exact (get_path_resolution "/root"
      ⟨[("p", .scalar (.str "data/in.txt"))], none⟩
      (.inr ["p"]) "data/in.txt" rfl).2.2 (by decide) rfl

end Fg21sim
